import Mathlib

/-!
Verification of the nonzero_ext crate (src/lib.rs): two traits, NonZero and
NonZeroAble, giving a shared interface over the six standard non-zero
unsigned integer wrapper types (NonZeroU8 .. NonZeroU128, NonZeroUsize).

Machine integers of bit width W are embedded as natural numbers below 2 ^ W;
the pointer-sized width is kept as a parameter.  The standard library's
inherent constructor and accessor, to which the trait implementations
delegate, are embedded as NonZeroPrim.new and NonZeroPrim.get.
-/

/-- A primitive unsigned machine integer of bit width W, embedded as a
natural number below 2 ^ W.  Values of this kind may legally be zero. -/
structure Prim (W : Nat) where
  val : Nat
  isLt : val < 2 ^ W

/-- A value of a standard-library non-zero wrapper type of bit width W
(NonZeroU8, NonZeroU16, NonZeroU32, NonZeroU64, NonZeroU128, NonZeroUsize):
a natural number below 2 ^ W that is not zero. -/
structure NonZeroPrim (W : Nat) where
  val : Nat
  isLt : val < 2 ^ W
  ne : val ≠ 0

/-- Modelled from the spec: the Rust standard library's inherent constructor
NonZeroUN::new (not part of this repository), which returns a present wrapper
exactly when its argument is nonzero; the trait implementations in
src/lib.rs delegate to it. -/
def NonZeroPrim.new (W : Nat) (n : Prim W) : Option (NonZeroPrim W) :=
  if h : n.val = 0 then none else some ⟨n.val, n.isLt, h⟩

/-- Modelled from the spec: the Rust standard library's inherent accessor
NonZeroUN::get (not part of this repository), returning the wrapped
primitive value unchanged. -/
def NonZeroPrim.get (W : Nat) (x : NonZeroPrim W) : Prim W :=
  ⟨x.val, x.isLt⟩

/-- The trait method NonZero::new generated by impl_nonzeroness in
src/lib.rs: its body Self::new(n) resolves to the inherent constructor of
the concrete wrapper type (inherent associated functions take precedence
over the trait method in Rust path resolution). -/
def NonZero.new (W : Nat) (n : Prim W) : Option (NonZeroPrim W) :=
  NonZeroPrim.new W n

/-- The trait method NonZero::get generated by impl_nonzeroness in
src/lib.rs: its body calls the inherent accessor of the concrete wrapper
type. -/
def NonZero.get (W : Nat) (x : NonZeroPrim W) : Prim W :=
  NonZeroPrim.get W x

/-- The trait method NonZeroAble::as_nonzero generated by impl_nonzeroable
in src/lib.rs: its body Self::NonZero::new(self) resolves to the inherent
constructor of the associated wrapper type. -/
def NonZeroAble.as_nonzero (W : Nat) (n : Prim W) : Option (NonZeroPrim W) :=
  NonZeroPrim.new W n

/-- The six primitive unsigned integer types of src/lib.rs that receive a
NonZeroAble implementation. -/
inductive PrimType where
  | u8
  | u16
  | u32
  | u64
  | u128
  | usize
deriving DecidableEq

/-- The six standard non-zero wrapper types of src/lib.rs that receive a
NonZero implementation. -/
inductive NonZeroType where
  | nzU8
  | nzU16
  | nzU32
  | nzU64
  | nzU128
  | nzUsize
deriving DecidableEq

/-- The associated type NonZero of each NonZeroAble implementation, read
off the six impl_nonzeroable invocations in src/lib.rs. -/
def NonZeroAble.assocNonZero : PrimType → NonZeroType
  | .u8 => .nzU8
  | .u16 => .nzU16
  | .u32 => .nzU32
  | .u64 => .nzU64
  | .u128 => .nzU128
  | .usize => .nzUsize

/-- The associated type Primitive of each NonZero implementation, read off
the six impl_nonzeroness invocations in src/lib.rs. -/
def NonZero.assocPrimitive : NonZeroType → PrimType
  | .nzU8 => .u8
  | .nzU16 => .u16
  | .nzU32 => .u32
  | .nzU64 => .u64
  | .nzU128 => .u128
  | .nzUsize => .usize

/-- Bit width of each primitive type; the pointer-sized width is the
parameter u. -/
def PrimType.bits (u : Nat) : PrimType → Nat
  | .u8 => 8
  | .u16 => 16
  | .u32 => 32
  | .u64 => 64
  | .u128 => 128
  | .usize => u

/-- Bit width of each non-zero wrapper type; the pointer-sized width is the
parameter u. -/
def NonZeroType.bits (u : Nat) : NonZeroType → Nat
  | .nzU8 => 8
  | .nzU16 => 16
  | .nzU32 => 32
  | .nzU64 => 64
  | .nzU128 => 128
  | .nzUsize => u

/-- The generic only_nonzeros function from the crate documentation in
src/lib.rs: filter a list of primitives through as_nonzero, discarding
absent results. -/
def only_nonzeros (W : Nat) (v : List (Prim W)) : List (NonZeroPrim W) :=
  v.filterMap (fun n => NonZeroAble.as_nonzero W n)

/-- Two non-zero wrapper values of the same width with equal underlying
values are equal. -/
theorem NonZeroPrim.ext_val {W : Nat} {x y : NonZeroPrim W} (h : x.val = y.val) :
    x = y := by
  cases x
  cases y
  simp_all

/-- C1: for every supported primitive width W and every primitive value n,
NonZero::new(n) returns an absent result exactly when n is zero and a
present wrapper instance exactly when n is nonzero. -/
theorem new_some_iff_ne_zero (W : Nat) (n : Prim W) :
    (NonZero.new W n = none ↔ n.val = 0) ∧
      ((NonZero.new W n).isSome ↔ n.val ≠ 0) := by
  unfold NonZero.new NonZeroPrim.new
  by_cases h : n.val = 0 <;> simp [h]

/-- Witness for C1 at width 8 and input 0. -/
theorem new_some_iff_ne_zero_w :
    (NonZero.new 8 ⟨0, by decide⟩ = none ↔ (⟨0, by decide⟩ : Prim 8).val = 0) ∧
      ((NonZero.new 8 ⟨0, by decide⟩).isSome ↔ (⟨0, by decide⟩ : Prim 8).val ≠ 0) :=
  new_some_iff_ne_zero 8 ⟨0, by decide⟩

/-- C2: for every supported primitive width W and primitive value v,
as_nonzero(v) is absent exactly when v is zero, and any present result
wraps the same numeric value v. -/
theorem as_nonzero_none_iff_and_preserves (W : Nat) (n : Prim W) :
    (NonZeroAble.as_nonzero W n = none ↔ n.val = 0) ∧
      (∀ m : NonZeroPrim W, NonZeroAble.as_nonzero W n = some m → m.val = n.val) := by
  unfold NonZeroAble.as_nonzero NonZeroPrim.new
  by_cases h : n.val = 0
  · simp [h]
  · refine ⟨by simp [h], ?_⟩
    intro m hm
    simp [h] at hm
    rw [← hm]

/-- Witness for C2 at width 8 and input 20. -/
theorem as_nonzero_none_iff_and_preserves_w :
    (⟨20, by decide, by decide⟩ : NonZeroPrim 8).val = (⟨20, by decide⟩ : Prim 8).val :=
  (as_nonzero_none_iff_and_preserves 8 ⟨20, by decide⟩).2 ⟨20, by decide, by decide⟩ rfl

/-- C3: round trip: for every supported width W and nonzero primitive
value n, NonZero::new(n) succeeds and applying get to the result yields
exactly n. -/
theorem new_get_roundtrip (W : Nat) (n : Prim W) (h : n.val ≠ 0) :
    (NonZero.new W n).map (NonZero.get W) = some n := by
  unfold NonZero.new NonZeroPrim.new NonZero.get NonZeroPrim.get
  cases n
  simp_all

/-- Witness for C3 at width 8 with the values 1, a middle value 128, and
the maximum representable value 255. -/
theorem new_get_roundtrip_w :
    (NonZero.new 8 ⟨1, by decide⟩).map (NonZero.get 8) = some ⟨1, by decide⟩ ∧
      (NonZero.new 8 ⟨128, by decide⟩).map (NonZero.get 8) = some ⟨128, by decide⟩ ∧
      (NonZero.new 8 ⟨255, by decide⟩).map (NonZero.get 8) = some ⟨255, by decide⟩ :=
  ⟨new_get_roundtrip 8 ⟨1, by decide⟩ (by decide),
    new_get_roundtrip 8 ⟨128, by decide⟩ (by decide),
    new_get_roundtrip 8 ⟨255, by decide⟩ (by decide)⟩

/-- C4: for every supported width W and primitive value n, as_nonzero(n)
and the associated wrapper type's NonZero::new(n) produce equivalent
results: the options are equal, hence both absent or both present with
identical extracted value. -/
theorem as_nonzero_eq_new (W : Nat) (n : Prim W) :
    NonZeroAble.as_nonzero W n = NonZero.new W n ∧
      (NonZeroAble.as_nonzero W n).map (fun m => m.val) =
        (NonZero.new W n).map (fun m => m.val) :=
  ⟨rfl, rfl⟩

/-- C5: the compile-time pairing of primitive types with non-zero wrapper
types is injective, the NonZeroAble associations invert the NonZero
associations on all six widths (so the map is total, one-to-one and the
two trait families carry identical pairing), and the pairing preserves the
bit width of every type, the pointer-sized width included. -/
theorem pairing_bijective :
    (∀ p q : PrimType,
        NonZeroAble.assocNonZero p = NonZeroAble.assocNonZero q → p = q) ∧
      (∀ p : PrimType, NonZero.assocPrimitive (NonZeroAble.assocNonZero p) = p) ∧
      (∀ z : NonZeroType, NonZeroAble.assocNonZero (NonZero.assocPrimitive z) = z) ∧
      (∀ u : Nat, ∀ p : PrimType,
        NonZeroType.bits u (NonZeroAble.assocNonZero p) = PrimType.bits u p) := by
  refine ⟨?_, ?_, ?_, ?_⟩
  · intro p q
    cases p <;> cases q <;> decide
  · intro p
    cases p <;> rfl
  · intro z
    cases z <;> rfl
  · intro u p
    cases p <;> rfl

/-- Witness for C5: the injectivity part applied at the 8-bit width. -/
theorem pairing_bijective_w : PrimType.u8 = PrimType.u8 :=
  pairing_bijective.1 PrimType.u8 PrimType.u8 (by decide)

/-- C6: for every wrapper instance x of every supported width, get(x) is a
total function (no failure or panic path in the embedding) returning the
wrapped primitive value unchanged, and that value is never zero. -/
theorem get_unchanged_and_nonzero (W : Nat) (x : NonZeroPrim W) :
    (NonZero.get W x).val = x.val ∧ (NonZero.get W x).val ≠ 0 :=
  ⟨rfl, x.ne⟩

/-- Witness for C6 at width 8 on the wrapper of 20. -/
theorem get_unchanged_and_nonzero_w :
    (NonZero.get 8 ⟨20, by decide, by decide⟩).val =
        (⟨20, by decide, by decide⟩ : NonZeroPrim 8).val ∧
      (NonZero.get 8 ⟨20, by decide, by decide⟩).val ≠ 0 :=
  get_unchanged_and_nonzero 8 ⟨20, by decide, by decide⟩

/-- C7: filtering any list of primitives whose values are [0, 20, 5]
through as_nonzero and discarding absences yields wrappers of exactly
[20, 5] in order; the statement holds at every width W large enough to
represent 20, which covers all six supported widths, so the 8-bit and
32-bit instances yield the same numeric result. -/
theorem only_nonzeros_zero_20_5 (W : Nat) (l : List (Prim W))
    (hl : l.map Prim.val = [0, 20, 5]) :
    (only_nonzeros W l).map NonZeroPrim.val = [20, 5] := by
  cases l with
  | nil => simp at hl
  | cons a t =>
    cases t with
    | nil => simp at hl
    | cons b t2 =>
      cases t2 with
      | nil => simp at hl
      | cons c t3 =>
        cases t3 with
        | cons d t4 => simp at hl
        | nil =>
          obtain ⟨ha, hb, hc⟩ : a.val = 0 ∧ b.val = 20 ∧ c.val = 5 := by
            simpa using hl
          simp [only_nonzeros, NonZeroAble.as_nonzero, NonZeroPrim.new,
            ha, hb, hc]

/-- Witness for C7 at width 8 on the concrete list [0, 20, 5]. -/
theorem only_nonzeros_zero_20_5_w :
    (only_nonzeros 8
        [⟨0, by decide⟩, ⟨20, by decide⟩, ⟨5, by decide⟩]).map NonZeroPrim.val
      = [20, 5] :=
  only_nonzeros_zero_20_5 8
    [⟨0, by decide⟩, ⟨20, by decide⟩, ⟨5, by decide⟩] rfl

/-- C8: new, get and as_nonzero are pure deterministic functions: two
invocations on equal inputs produce equal results (the operations are
embedded as total functions of their argument alone, with no external
state). -/
theorem ops_deterministic (W : Nat) (n m : Prim W) (x y : NonZeroPrim W)
    (hnm : n = m) (hxy : x = y) :
    NonZero.new W n = NonZero.new W m ∧
      NonZero.get W x = NonZero.get W y ∧
      NonZeroAble.as_nonzero W n = NonZeroAble.as_nonzero W m := by
  subst hnm
  subst hxy
  exact ⟨rfl, rfl, rfl⟩

/-- Witness for C8 at width 8. -/
theorem ops_deterministic_w :
    NonZero.new 8 ⟨20, by decide⟩ = NonZero.new 8 ⟨20, by decide⟩ ∧
      NonZero.get 8 ⟨20, by decide, by decide⟩ =
        NonZero.get 8 ⟨20, by decide, by decide⟩ ∧
      NonZeroAble.as_nonzero 8 ⟨20, by decide⟩ =
        NonZeroAble.as_nonzero 8 ⟨20, by decide⟩ :=
  ops_deterministic 8 ⟨20, by decide⟩ ⟨20, by decide⟩
    ⟨20, by decide, by decide⟩ ⟨20, by decide, by decide⟩ rfl rfl

/-- C9: reverse round trip: for every supported width W and wrapper
instance x, NonZero::new(NonZero::get(x)) returns a present result equal
to x. -/
theorem get_new_roundtrip (W : Nat) (x : NonZeroPrim W) :
    NonZero.new W (NonZero.get W x) = some x := by
  cases x with
  | mk v hlt hne =>
    simp [NonZero.new, NonZeroPrim.new, NonZero.get, NonZeroPrim.get, hne]

/-- C10: the trait method NonZero::new equals the inherent standard-library
constructor of the concrete wrapper type: the call Self::new(n) in
impl_nonzeroness resolves to the inherent constructor, not recursively to
the trait method, so the trait method is total and terminates on every
input. -/
theorem trait_new_eq_inherent (W : Nat) (n : Prim W) :
    NonZero.new W n = NonZeroPrim.new W n :=
  rfl
